import Mathlib

/-!
Verification development for the arch repo manager.

This file gives a shallow embedding of the parts of the repository that the
checked claims are about:

* the build-action meta-info table (`buildactionmeta.cpp`),
* error accumulation and conclusion of `ReloadLibraryDependencies`
  (`reloadlibrarydependencies.cpp`),
* the client CLI's response handling and exit codes (client `main.cpp`),
* the write-through `StorageCache` and its LRU entry container
  (`storageprivate.cpp`),
* the `Database` dependency indices and the write-back phase of
  `ReloadLibraryDependencies`,
* `RemovePackages`, `MovePackages` and `CleanRepository`
  (`packagemovementactions.cpp` / `cleanrepository.cpp`).

Pure functions of the source are translated into Lean functions; stateful code
is translated into explicit state passing.  Heap objects held through
`std::shared_ptr` are modelled by natural-number addresses into an explicit
heap, so that pointer identity and value equality stay distinguishable.
Definitions whose implementation is not part of the provided sources (only
their declarations or callers are) are modelled from the specification and
carry a doc comment starting with `Modelled from the spec:`.
-/

namespace ArchRepo

/-! ## Build-action basics -/

/-- Embeds `BuildActionResult` of `buildactionmeta.h` (listed in the provided
sources via its meta-info table). -/
inductive BuildActionResult
  | None
  | Success
  | Failure
  | ConfirmationDeclined
  | Aborted
  deriving DecidableEq, Repr

/-- Embeds `BuildActionType` of `buildactionmeta.h`: the action types listed in
the meta-info table of `buildactionmeta.cpp`. -/
inductive BuildActionType
  | Invalid
  | RemovePackages
  | MovePackages
  | CheckForUpdates
  | ReloadDatabase
  | ReloadLibraryDependencies
  | PrepareBuild
  | ConductBuild
  | MakeLicenseInfo
  | ReloadConfiguration
  | CheckForProblems
  | CleanRepository
  | DummyBuildAction
  | CustomCommand
  deriving DecidableEq, BEq, Repr

/-- Embeds `BuildActionFlagMetaInfo` (description of one flag of a build-action
type).  The numeric flag id lives in `buildactionmeta.h`, which is not among
the provided sources; it is irrelevant to the lookup claims and omitted. -/
structure BuildActionFlagMetaInfo where
  name : String := ""
  desc : String := ""
  param : String := ""
  deriving DecidableEq, Repr

/-- Embeds `BuildActionSettingMetaInfo` (description of one setting of a
build-action type). -/
structure BuildActionSettingMetaInfo where
  name : String := ""
  desc : String := ""
  param : String := ""
  deriving DecidableEq, Repr

/-- Embeds `BuildActionTypeMetaInfo`: one record of the declarative meta-info
table. -/
structure BuildActionTypeMetaInfo where
  id : BuildActionType := BuildActionType.Invalid
  category : String := ""
  name : String := ""
  type : String := ""
  flags : List BuildActionFlagMetaInfo := []
  settings : List BuildActionSettingMetaInfo := []
  directory : Bool := false
  sourceDb : Bool := false
  destinationDb : Bool := false
  packageNames : Bool := false
  deriving DecidableEq, Repr

/-- Embeds the `types` table constructed in `BuildActionMetaInfo`'s constructor
in `buildactionmeta.cpp`, record by record. -/
def buildActionTypes : List BuildActionTypeMetaInfo := [
  { id := BuildActionType.Invalid,
    name := "Invalid" },
  { id := BuildActionType.RemovePackages,
    category := "Repo management",
    name := "Remove packages",
    type := "remove-packages",
    directory := true, sourceDb := false, destinationDb := true, packageNames := true },
  { id := BuildActionType.MovePackages,
    category := "Repo management",
    name := "Move packages",
    type := "move-packages",
    directory := true, sourceDb := true, destinationDb := true, packageNames := true },
  { id := BuildActionType.CheckForUpdates,
    category := "Repo management",
    name := "Check for updates",
    type := "check-updates",
    directory := false, sourceDb := true, destinationDb := true, packageNames := false },
  { id := BuildActionType.ReloadDatabase,
    category := "Repo management",
    name := "Reload databases",
    type := "reload-database",
    directory := false, sourceDb := false, destinationDb := true, packageNames := false },
  { id := BuildActionType.ReloadLibraryDependencies,
    category := "Refresh data",
    name := "Reload library dependencies",
    type := "reload-library-dependencies",
    flags := [
      { name := "Force reload",
        desc := "Reload packages as well even though they have not changed on disk since the last reload",
        param := "force-reload" },
      { name := "Skip dependencies",
        desc := "Do not take dependencies of the specified destination databases into account",
        param := "skip-dependencies" }],
    directory := false, sourceDb := false, destinationDb := true, packageNames := false },
  { id := BuildActionType.PrepareBuild,
    category := "Building",
    name := "Prepare build",
    type := "prepare-build",
    flags := [
      { name := "Force-bump pkgrel",
        desc := "Bump the pkgrel of the packages even if there is no existing version",
        param := "force-bump-pkgrel" },
      { name := "Clean source directory",
        desc := "Removes existing \"src\" sub-directories for the specified packages in the directory; use to update previously built packages",
        param := "clean-src-dir" },
      { name := "Keep dependency order",
        desc := "Build packages in the specified order",
        param := "keep-order" },
      { name := "Keep pkgrel/epoch",
        desc := "Never bumps pkgrel and epoch",
        param := "keep-pkgrel-and-epoch" }],
    settings := [
      { name := "PKGBUILDs directory",
        desc := "A colon separated list of PKGBUILDs directories to consider before checking the standard directories",
        param := "pkgbuilds-dir" }],
    directory := true, sourceDb := true, destinationDb := true, packageNames := true },
  { id := BuildActionType.ConductBuild,
    category := "Building",
    name := "Conduct build",
    type := "conduct-build",
    flags := [
      { name := "Build as far as possible",
        desc := "By default the next batch is only considered when all packages in the previous batch succeeded; this option allows to build as far as possible instead",
        param := "build-as-far-as-possible" },
      { name := "Save chroot of failures",
        desc := "Renames the chroot working copy when a package failed to build so it will not be overridden by further builds and can be used for further investigation",
        param := "save-chroot-of-failures" },
      { name := "Update checksums",
        desc := "Assumes that the checksums of the PKGBUILDs are outdated and will therefore update the checksums instead of using them for validation",
        param := "update-checksums" },
      { name := "Auto-staging",
        desc := "Adds \"breaking\" packages only to the destination DB's staging repsitory and emits a rebuild list",
        param := "auto-staging" }],
    settings := [
      { name := "Chroot directory",
        desc := "The chroot directory to use (instead of the globally configured one)",
        param := "chroot-dir" },
      { name := "Chroot default user",
        desc := "The default chroot user to use (instead of the globally configured one)",
        param := "chroot-dir" },
      { name := "CCache directory",
        desc := "The ccache directory to use (instead of the globally configured one)",
        param := "ccache-dir" },
      { name := "Package cache directory",
        desc := "The package cache directory to use (instead of the globally configured one)",
        param := "pkg-cache-dir" },
      { name := "Test files directory",
        desc := "The test files directory to use (instead of the globally configured one)",
        param := "test-files-dir" }],
    directory := true, sourceDb := false, destinationDb := false, packageNames := true },
  { id := BuildActionType.MakeLicenseInfo,
    category := "Misc",
    name := "Make license info",
    type := "make-license-info",
    directory := false, sourceDb := false, destinationDb := false, packageNames := true },
  { id := BuildActionType.ReloadConfiguration,
    category := "Refresh data",
    name := "Reload configuration",
    type := "reload-configuration",
    directory := false, sourceDb := false, destinationDb := false, packageNames := false },
  { id := BuildActionType.CheckForProblems,
    category := "Repo management",
    name := "Check for problems",
    type := "check-for-problems",
    directory := true, sourceDb := false, destinationDb := true, packageNames := true },
  { id := BuildActionType.CleanRepository,
    category := "Repo management",
    name := "Clean repository",
    type := "clean-repository",
    flags := [
      { name := "Dry run",
        desc := "Only record what would be done",
        param := "dry-run" }],
    directory := true, sourceDb := false, destinationDb := true, packageNames := true },
  { id := BuildActionType.DummyBuildAction,
    category := "Misc",
    name := "Dummy action for debugging",
    type := "dummy",
    directory := true, sourceDb := false, destinationDb := false, packageNames := false },
  { id := BuildActionType.CustomCommand,
    category := "Misc",
    name := "Execute custom Bash command",
    type := "custom-command",
    settings := [
      { name := "Command",
        desc := "The command to execute via Bash",
        param := "cmd" }],
    directory := true, sourceDb := false, destinationDb := false, packageNames := false }]

/-- Modelled from the spec: `typeInfoForId` is declared in `buildactionmeta.h`,
which is not among the provided sources.  Per the spec, the lookups
`typeInfoForName(slug)` and `typeInfoForId(id)` "return the info or an
`Invalid` sentinel"; every listed id has a record, so this is a lookup of the
table record carrying the given id, falling back to the `Invalid` record. -/
def typeInfoForId (t : BuildActionType) : BuildActionTypeMetaInfo :=
  (buildActionTypes.find? (fun i => i.id == t)).getD
    { id := BuildActionType.Invalid, name := "Invalid" }

/-- Embeds `BuildActionMetaInfo::typeInfoForName` of `buildactionmeta.cpp`:
the hash map `m_typeInfoByName` is keyed by the `type` slug of each record
(slugs are pairwise distinct, so a linear lookup of the table is equivalent);
a miss returns `typeInfoForId(BuildActionType::Invalid)`. -/
def typeInfoForName (s : String) : BuildActionTypeMetaInfo :=
  (buildActionTypes.find? (fun i => i.type == s)).getD
    (typeInfoForId BuildActionType.Invalid)

/-! ## ReloadLibraryDependencies: error accumulation and conclusion -/

/-- Embeds `BuildActionMessages` (errors/warnings/notes result data). -/
structure BuildActionMessages where
  errors : List String := []
  warnings : List String := []
  notes : List String := []
  deriving DecidableEq, Repr

/-- Embeds the error handling of one iteration of the parsing loop in
`ReloadLibraryDependencies::loadPackageInfoFromContents`
(`reloadlibrarydependencies.cpp` lines 232-292): a package whose caching or
archive parsing failed contributes its error message to `m_messages.errors`
(under the submit-error mutex) and the loop continues with the next package. -/
def processPackage (m : BuildActionMessages) (outcome : Option String) :
    BuildActionMessages :=
  match outcome with
  | some e => { m with errors := m.errors ++ [e] }
  | none => m

/-- Runs the parsing loop over all remaining packages (abort flag not set):
each package is processed and its potential error recorded; the result counts
the processed packages. -/
def processPackages : BuildActionMessages → List (Option String) →
    BuildActionMessages × Nat
  | m, [] => (m, 0)
  | m, o :: rest =>
    let r := processPackages (processPackage m o) rest
    (r.1, r.2 + 1)

/-- Embeds `ReloadLibraryDependencies::conclude`
(`reloadlibrarydependencies.cpp` lines 344-353) for a run that was not
aborted: the result is `Success` when `m_messages.errors` is empty and
`Failure` otherwise. -/
def concludeResult (m : BuildActionMessages) : BuildActionResult :=
  if m.errors = [] then BuildActionResult.Success else BuildActionResult.Failure

/-! ## Client CLI exit codes -/

/-- Outcome of the client's single HTTP request as distinguished by
`handleResponse` in the client `main.cpp`. -/
inductive ResponseOutcome
  | ConnectError
  | HttpError
  | ParseError
  | DisplayError
  | Ok
  deriving DecidableEq, Repr

/-- Embeds `handleResponse` (client `main.cpp` lines 224-252) restricted to
its effect on `returnCode`: a connect error or a non-OK HTTP status only print
and leave `returnCode` untouched; a `ParseResult` exception from the printer
sets it to 11 and a `runtime_error` (display failure) sets it to 12. -/
def handleResponseReturnCode (o : ResponseOutcome) (returnCode : Int) : Int :=
  match o with
  | ResponseOutcome.ParseError => 11
  | ResponseOutcome.DisplayError => 12
  | _ => returnCode

/-- Embeds the exit-code logic of the client `main` (client `main.cpp` lines
254-322) for an invocation with an operation specified: a config parsing
error returns 10; otherwise `returnCode` is initialised to 0, handed by
reference to `handleResponse`, and then `main` ends with `return 0;`, which
discards the recorded value. -/
def clientMainExitCode (configOk : Bool) (o : ResponseOutcome) : Int :=
  if !configOk then 10
  else
    let _finalReturnCode := handleResponseReturnCode o 0
    0

/-! ## Package data and the identity-checked merge -/

/-- Embeds `PackageOrigin` of `package.h`. -/
inductive PkgOrigin
  | Unknown
  | PackageFileName
  | DatabaseFileList
  | PackageContents
  deriving DecidableEq, Repr, Inhabited

/-- Embeds the fields of `LibPkg::Package` that the checked claims depend on.
Dependencies and provides are reduced to their dependency names (the version
constraint plays no role in the claims about the dependency indices). -/
structure Pkg where
  name : String := ""
  version : String := ""
  buildDate : Nat := 0
  dependencies : List String := []
  provides : List String := []
  libprovides : List String := []
  libdepends : List String := []
  origin : PkgOrigin := PkgOrigin.Unknown
  timestamp : Nat := 0
  deriving DecidableEq, Repr, Inhabited

/-- Modelled from the spec: `Package::addDepsAndProvidesFromOtherPackage` is
implemented in `libpkg` outside the provided sources.  Per the spec it
"copies the library-level fields from `other` into `self` iff `name`,
`version`, and `packageInfo.buildDate` match; returns whether the merge was
applied".  The returned pair is (merge applied?, resulting `self`). -/
def Package.addDepsAndProvidesFromOtherPackage (self other : Pkg) : Bool × Pkg :=
  if self.name = other.name ∧ self.version = other.version
      ∧ self.buildDate = other.buildDate then
    (true, { self with libprovides := other.libprovides,
                       libdepends := other.libdepends })
  else
    (false, self)

/-! ## StorageCache

The write-through cache of `storageprivate.cpp`.  Entry objects are held via
`std::shared_ptr`; they are modelled as natural-number addresses into an
explicit heap (`Nat → Pkg`) so that pointer identity (`==` on two
`std::shared_ptr`s) and byte-wise value equality remain distinguishable.
A fresh-allocation counter `nextPtr` models `std::make_shared`. -/

/-- Embeds `StorageCacheRef`: the lookup key (related storage, entry name).
The `entryName` member is a pointer to the entry's name string; it is modelled
by the string value (the reassignment `cacheEntry->ref.entryName =
&entry->name` in `store` rebinds it to an equal string, a value-level no-op).
Storages are identified by a number. -/
structure CacheRef where
  storage : Nat
  name : String
  deriving DecidableEq, Repr

/-- Embeds `StorageCacheEntry`: key, storage ID and the shared entry object
(modelled by its heap address). -/
structure CacheEntry where
  ref : CacheRef
  id : Nat
  ptr : Nat
  deriving DecidableEq, Repr

/-- Whether a cache entry carries the given (storage, entry name) key. -/
def matchesRef (e : CacheEntry) (s : Nat) (n : String) : Bool :=
  e.ref.storage == s && e.ref.name == n

/-- Embeds `StorageCacheEntries::find` (`storageprivate.cpp` lines 9-19): the
multi-index container is modelled as a list ordered MRU-first; a hit is
relocated to the front and returned, a miss leaves the list unchanged. -/
def StorageCacheEntries.find (c : List CacheEntry) (s : Nat) (n : String) :
    Option CacheEntry × List CacheEntry :=
  match c.find? (fun e => matchesRef e s n) with
  | some e => (some e, e :: c.eraseP (fun e' => matchesRef e' s n))
  | none => (none, c)

/-- Embeds `StorageCacheEntries::insert` (`storageprivate.cpp` lines 21-30):
`emplace_front` fails on a key collision, in which case the existing entry is
relocated to the front; otherwise the new entry is prepended and, if the size
now exceeds `m_limit`, the LRU tail is popped. -/
def StorageCacheEntries.insert (limit : Nat) (c : List CacheEntry)
    (e : CacheEntry) : List CacheEntry :=
  match c.find? (fun e' => matchesRef e' e.ref.storage e.ref.name) with
  | some old => old :: c.eraseP (fun e' => matchesRef e' e.ref.storage e.ref.name)
  | none =>
    if limit < (e :: c).length then (e :: c).dropLast else e :: c

/-- Embeds one record of the memory-mapped backing store (one LMDB-style
record of the `packages` sub-table: storage, numeric record ID, and the
serialized entry value). -/
structure BackingRecord where
  storage : Nat
  id : Nat
  content : Pkg
  deriving DecidableEq, Repr

/-- Lookup by the name index (`txn.get<0>(entryName, …)`). -/
def backingGetByName (b : List BackingRecord) (s : Nat) (n : String) :
    Option (Nat × Pkg) :=
  (b.find? (fun r => r.storage == s && r.content.name == n)).map
    (fun r => (r.id, r.content))

/-- Lookup by record ID (`txn.get(storageID, …)`). -/
def backingGetById (b : List BackingRecord) (s : Nat) (id : Nat) : Option Pkg :=
  (b.find? (fun r => r.storage == s && r.id == id)).map (fun r => r.content)

/-- Largest record ID in use for a storage (basis of LMDB-style ID
allocation). -/
def backingMaxId (b : List BackingRecord) (s : Nat) : Nat :=
  b.foldr (fun r acc => if r.storage == s then max r.id acc else acc) 0

/-- Embeds `txn.put(value, id)` of the LMDB-safe backing: a non-zero `id`
overwrites (or creates) the record with that ID; `id = 0` allocates the next
free ID.  Returns the ID actually written. -/
def backingPut (b : List BackingRecord) (s : Nat) (id : Nat) (v : Pkg) :
    Nat × List BackingRecord :=
  if id ≠ 0 then
    if (b.find? (fun r => r.storage == s && r.id == id)).isSome then
      (id, b.map (fun r => if r.storage == s && r.id == id then
        { r with content := v } else r))
    else
      (id, b ++ [⟨s, id, v⟩])
  else
    (backingMaxId b s + 1, b ++ [⟨s, backingMaxId b s + 1, v⟩])

/-- State of one `StorageCache` together with the heap of shared entry
objects. -/
structure CacheState where
  heap : Nat → Pkg
  nextPtr : Nat
  cache : List CacheEntry
  backing : List BackingRecord

/-- Writes a value through a pointer (mutation of the shared object all
aliases observe). -/
def heapSet (h : Nat → Pkg) (p : Nat) (v : Pkg) : Nat → Pkg :=
  fun q => if q = p then v else h q

/-- Embeds `StorageCache::StoreResult` (the `oldEntry` snapshot is not used by
any checked claim and omitted). -/
structure StoreResult where
  id : Nat := 0
  updated : Bool := false
  deriving DecidableEq, Repr

/-- Embeds `StorageCache::store(storage, entry, force)` (`storageprivate.cpp`
lines 98-145).  The cache lookup relocates a hit to the MRU front.  The no-op
branch requires `cacheEntry->entry == entry` — pointer identity of the two
`std::shared_ptr`s — and `!force`.  Otherwise contents-derived information is
retained from the previous entry (from the cache hit, or else from the record
found under the name index inside the read-write transaction; note that in
the latter case `res.id` remains 0, so `put` allocates a fresh ID), the entry
is written via `txn.put`, the cache entry is updated or inserted, and the
result reports `updated = true`. -/
def StorageCache.store (limit : Nat) (st : CacheState) (s : Nat)
    (entryPtr : Nat) (force : Bool) : StoreResult × CacheState :=
  match st.cache.find? (fun e => matchesRef e s (st.heap entryPtr).name) with
  | some ce =>
    if ce.ptr == entryPtr && !force then
      ({ id := ce.id, updated := false },
       { st with cache :=
          ce :: st.cache.eraseP (fun e => matchesRef e s (st.heap entryPtr).name) })
    else
      ({ id := (backingPut st.backing s ce.id
           (Package.addDepsAndProvidesFromOtherPackage (st.heap entryPtr)
             (st.heap ce.ptr)).2).1,
         updated := true },
       { st with
          heap := heapSet st.heap entryPtr
            (Package.addDepsAndProvidesFromOtherPackage (st.heap entryPtr)
              (st.heap ce.ptr)).2,
          cache := { ce with ptr := entryPtr } ::
            st.cache.eraseP (fun e => matchesRef e s (st.heap entryPtr).name),
          backing := (backingPut st.backing s ce.id
            (Package.addDepsAndProvidesFromOtherPackage (st.heap entryPtr)
              (st.heap ce.ptr)).2).2 })
  | none =>
    match backingGetByName st.backing s (st.heap entryPtr).name with
    | some old =>
      ({ id := (backingPut st.backing s 0
           (Package.addDepsAndProvidesFromOtherPackage (st.heap entryPtr) old.2).2).1,
         updated := true },
       { st with
          heap := heapSet st.heap entryPtr
            (Package.addDepsAndProvidesFromOtherPackage (st.heap entryPtr) old.2).2,
          cache := StorageCacheEntries.insert limit st.cache
            ⟨⟨s, (st.heap entryPtr).name⟩,
             (backingPut st.backing s 0
               (Package.addDepsAndProvidesFromOtherPackage (st.heap entryPtr) old.2).2).1,
             entryPtr⟩,
          backing := (backingPut st.backing s 0
            (Package.addDepsAndProvidesFromOtherPackage (st.heap entryPtr) old.2).2).2 })
    | none =>
      ({ id := (backingPut st.backing s 0 (st.heap entryPtr)).1, updated := true },
       { st with
          cache := StorageCacheEntries.insert limit st.cache
            ⟨⟨s, (st.heap entryPtr).name⟩,
             (backingPut st.backing s 0 (st.heap entryPtr)).1, entryPtr⟩,
          backing := (backingPut st.backing s 0 (st.heap entryPtr)).2 })

/-- Embeds `StorageCache::retrieve(storage, entryName)` (`storageprivate.cpp`
lines 72-96): cache hit returns (ID, entry) and promotes the entry to MRU; on
a miss a read-only transaction consults the name index and, when found, a
fresh entry object is allocated, populated, and inserted into the cache;
otherwise the result is `(0, none)`. -/
def StorageCache.retrieve (limit : Nat) (st : CacheState) (s : Nat)
    (n : String) : (Nat × Option Nat) × CacheState :=
  match st.cache.find? (fun e => matchesRef e s n) with
  | some ce =>
    ((ce.id, some ce.ptr),
     { st with cache := ce :: st.cache.eraseP (fun e => matchesRef e s n) })
  | none =>
    match backingGetByName st.backing s n with
    | some idContent =>
      ((idContent.1, some st.nextPtr),
       { st with
          heap := heapSet st.heap st.nextPtr idContent.2,
          nextPtr := st.nextPtr + 1,
          cache := StorageCacheEntries.insert limit st.cache
            ⟨⟨s, n⟩, idContent.1, st.nextPtr⟩ })
    | none => ((0, none), st)

/-- Embeds `StorageCache::invalidate(storage, entryName)` (`storageprivate.cpp`
lines 188-204): the cache entry with the given key is erased, then the record
found under the name index is deleted and committed; returns whether a record
was deleted. -/
def StorageCache.invalidate (st : CacheState) (s : Nat) (n : String) :
    Bool × CacheState :=
  match backingGetByName st.backing s n with
  | some _ =>
    (true,
     { st with
        cache := st.cache.eraseP (fun e => matchesRef e s n),
        backing := st.backing.eraseP
          (fun r => r.storage == s && r.content.name == n) })
  | none =>
    (false, { st with cache := st.cache.eraseP (fun e => matchesRef e s n) })

/-- One in-memory LRU operation: the operations `retrieve`, `store` and
`insert` act on `StorageCacheEntries` through `find` (with MRU promotion) and
`insert`. -/
inductive LruOp
  | findOp (s : Nat) (n : String)
  | insertOp (e : CacheEntry)

/-- Applies one LRU operation to the entry list. -/
def applyLruOp (limit : Nat) (c : List CacheEntry) : LruOp → List CacheEntry
  | LruOp.findOp s n => (StorageCacheEntries.find c s n).2
  | LruOp.insertOp e => StorageCacheEntries.insert limit c e

/-- Applies a sequence of LRU operations. -/
def applyLruOps (limit : Nat) (c : List CacheEntry) : List LruOp → List CacheEntry
  | [] => c
  | op :: rest => applyLruOps limit (applyLruOp limit c op) rest

/-! ## Helper lemmas about the LRU list operations -/

/-- Relocating a found element preserves the length of the list. -/
theorem length_cons_eraseP_of_find? {α} {p : α → Bool} {l : List α} {a : α}
    (h : l.find? p = some a) : (a :: l.eraseP p).length = l.length := by
  have h1 := List.length_eraseP_add_one (List.mem_of_find?_eq_some h)
    (List.find?_some h)
  simp only [List.length_cons]
  omega

/-- Relocating a found element permutes the list. -/
theorem perm_cons_eraseP_of_find? {α} {p : α → Bool} {l : List α} {a : α}
    (h : l.find? p = some a) : l.Perm (a :: l.eraseP p) := by
  induction l with
  | nil => simp at h
  | cons x xs ih =>
    cases hp : p x with
    | true =>
      rw [List.find?_cons_of_pos _ hp] at h
      injection h with h
      subst h
      rw [List.eraseP_cons_of_pos hp]
    | false =>
      have hp' : ¬p x = true := by simp [hp]
      rw [List.find?_cons_of_neg _ hp'] at h
      rw [List.eraseP_cons_of_neg hp']
      exact ((ih h).cons x).trans (List.Perm.swap a x _)

/-- A list with at most one element satisfying `p` has none left after
erasing the first one. -/
theorem find?_eraseP_eq_none {α} {p : α → Bool} {l : List α}
    (h : l.countP p ≤ 1) : (l.eraseP p).find? p = none := by
  induction l with
  | nil => rfl
  | cons x xs ih =>
    cases hp : p x with
    | true =>
      rw [List.eraseP_cons_of_pos hp]
      rw [List.countP_cons_of_pos _ _ hp] at h
      refine List.find?_eq_none.mpr (fun a ha hpa => ?_)
      have h0 : xs.countP p = 0 := by omega
      exact absurd hpa (by simpa using List.countP_eq_zero.mp h0 a ha)
    | false =>
      have hp' : ¬p x = true := by simp [hp]
      rw [List.eraseP_cons_of_neg hp']
      rw [List.countP_cons_of_neg _ _ hp'] at h
      rw [List.find?_cons_of_neg _ hp']
      exact ih h

/-- Inserting an entry keeps the cache within its capacity. -/
theorem length_insert_le (limit : Nat) (c : List CacheEntry) (e : CacheEntry)
    (h : c.length ≤ limit) :
    (StorageCacheEntries.insert limit c e).length ≤ limit := by
  unfold StorageCacheEntries.insert
  cases hf : c.find? (fun e' => matchesRef e' e.ref.storage e.ref.name) with
  | some old => rw [length_cons_eraseP_of_find? hf]; exact h
  | none =>
    by_cases hlt : limit < (e :: c).length
    · rw [if_pos hlt]
      simp only [List.length_dropLast, List.length_cons]
      omega
    · rw [if_neg hlt]
      simp only [List.length_cons] at hlt ⊢
      omega

/-- A fresh insert into a cache without a colliding key prepends the entry. -/
theorem insert_cons_of_find?_none {limit : Nat} {c : List CacheEntry}
    {e : CacheEntry}
    (hf : c.find? (fun x => matchesRef x e.ref.storage e.ref.name) = none)
    (hlim : 0 < limit) :
    ∃ t, StorageCacheEntries.insert limit c e = e :: t := by
  unfold StorageCacheEntries.insert
  rw [hf]
  by_cases hlt : limit < (e :: c).length
  · cases c with
    | nil => simp only [List.length_cons, List.length_nil] at hlt; omega
    | cons y ys =>
      refine ⟨(y :: ys).dropLast, ?_⟩
      rw [if_pos hlt]
      rfl
  · exact ⟨c, by rw [if_neg hlt]⟩

/-- C9: the in-memory LRU cache of `StorageCache` never exceeds its fixed
capacity under any sequence of `find`/`insert` operations (to which
`retrieve`, `store` and `insert` reduce); a hit relocates the found entry to
the most-recently-used front without changing the multiset of entries; and a
fresh insert into a full cache evicts exactly the least-recently-used tail
entry. -/
theorem c9_lru_bounded_and_promotes (limit : Nat) :
    (∀ (c : List CacheEntry) (ops : List LruOp), c.length ≤ limit →
      (applyLruOps limit c ops).length ≤ limit)
    ∧ (∀ (c : List CacheEntry) (s : Nat) (n : String) (ce : CacheEntry),
        (StorageCacheEntries.find c s n).1 = some ce →
          (StorageCacheEntries.find c s n).2.head? = some ce
          ∧ (StorageCacheEntries.find c s n).2.Perm c)
    ∧ (∀ (c : List CacheEntry) (e : CacheEntry), c.length = limit → 0 < limit →
        c.find? (fun x => matchesRef x e.ref.storage e.ref.name) = none →
          StorageCacheEntries.insert limit c e = e :: c.dropLast) := by
  refine ⟨?_, ?_, ?_⟩
  · intro c ops
    induction ops generalizing c with
    | nil => intro h; exact h
    | cons op rest ih =>
      intro h
      refine ih _ ?_
      cases op with
      | findOp s n =>
        show (StorageCacheEntries.find c s n).2.length ≤ limit
        unfold StorageCacheEntries.find
        cases hf : c.find? (fun e => matchesRef e s n) with
        | some e => simpa [length_cons_eraseP_of_find? hf] using h
        | none => exact h
      | insertOp e => exact length_insert_le limit c e h
  · intro c s n ce h
    unfold StorageCacheEntries.find at h ⊢
    cases hf : c.find? (fun e => matchesRef e s n) with
    | some e =>
      rw [hf] at h
      injection h with h
      subst h
      exact ⟨rfl, (perm_cons_eraseP_of_find? hf).symm⟩
    | none => rw [hf] at h; cases h
  · intro c e hlen hlim hf
    unfold StorageCacheEntries.insert
    rw [hf]
    have hlt : limit < (e :: c).length := by
      simp only [List.length_cons]
      omega
    rw [if_pos hlt]
    cases c with
    | nil => simp only [List.length_nil] at hlen; omega
    | cons y ys => rfl

/-- Witness for C9: a concrete run of two inserts into an LRU of capacity 1
stays within the capacity; a concrete hit is promoted; a concrete insert into
a full cache evicts the tail. -/
theorem c9_lru_witness :
    (applyLruOps 1 []
      [LruOp.insertOp ⟨⟨0, "a"⟩, 1, 1⟩, LruOp.insertOp ⟨⟨0, "b"⟩, 2, 2⟩]).length ≤ 1
    ∧ ((StorageCacheEntries.find [⟨⟨0, "a"⟩, 1, 1⟩] 0 "a").2.head?
          = some ⟨⟨0, "a"⟩, 1, 1⟩
        ∧ (StorageCacheEntries.find [⟨⟨0, "a"⟩, 1, 1⟩] 0 "a").2.Perm
            [⟨⟨0, "a"⟩, 1, 1⟩])
    ∧ StorageCacheEntries.insert 1 [⟨⟨0, "a"⟩, 1, 1⟩] ⟨⟨0, "b"⟩, 2, 2⟩
        = ⟨⟨0, "b"⟩, 2, 2⟩ :: ([⟨⟨0, "a"⟩, 1, 1⟩] : List CacheEntry).dropLast :=
  ⟨(c9_lru_bounded_and_promotes 1).1 [] _ (by decide),
   (c9_lru_bounded_and_promotes 1).2.1 [⟨⟨0, "a"⟩, 1, 1⟩] 0 "a" ⟨⟨0, "a"⟩, 1, 1⟩
     (by decide),
   (c9_lru_bounded_and_promotes 1).2.2 [⟨⟨0, "a"⟩, 1, 1⟩] ⟨⟨0, "b"⟩, 2, 2⟩
     (by decide) (by decide) (by decide)⟩

/-! ## Helper lemmas about the backing store -/

/-- Writing under a non-zero ID keeps that ID. -/
theorem backingPut_fst_of_ne_zero {b : List BackingRecord} {s id : Nat} {v : Pkg}
    (h : id ≠ 0) : (backingPut b s id v).1 = id := by
  unfold backingPut
  rw [if_pos h]
  split <;> rfl

/-- Writing under ID 0 allocates the next free ID. -/
theorem backingPut_fst_zero (b : List BackingRecord) (s : Nat) (v : Pkg) :
    (backingPut b s 0 v).1 = backingMaxId b s + 1 := by
  unfold backingPut
  simp

/-- Every record of a storage has an ID bounded by `backingMaxId`. -/
theorem mem_id_le_backingMaxId {b : List BackingRecord} {s : Nat}
    {r : BackingRecord} (hr : r ∈ b) (hs : r.storage = s) :
    r.id ≤ backingMaxId b s := by
  induction b with
  | nil => cases hr
  | cons x xs ih =>
    rcases List.mem_cons.mp hr with h | h
    · subst h
      unfold backingMaxId
      simp only [List.foldr_cons]
      rw [if_pos (by simp [hs])]
      exact le_max_left _ _
    · have hx := ih h
      unfold backingMaxId at hx ⊢
      simp only [List.foldr_cons]
      by_cases hc : (x.storage == s) = true
      · rw [if_pos hc]; exact le_trans hx (le_max_right _ _)
      · rw [if_neg hc]; exact hx

/-- No record uses the freshly allocated ID yet. -/
theorem find?_fresh_id_eq_none (b : List BackingRecord) (s : Nat) :
    b.find? (fun r => r.storage == s && r.id == backingMaxId b s + 1) = none := by
  refine List.find?_eq_none.mpr (fun r hr hp => ?_)
  simp only [Bool.and_eq_true, beq_iff_eq] at hp
  have := mem_id_le_backingMaxId hr hp.1
  omega

/-- Searching an append skips a prefix without matches. -/
theorem find?_append_of_none {α} {p : α → Bool} {l₁ l₂ : List α}
    (h : l₁.find? p = none) : (l₁ ++ l₂).find? p = l₂.find? p := by
  rw [List.find?_append, h, Option.none_or]

/-- Looking up the replaced record after an in-place overwrite yields the new
content. -/
theorem getById_map_replace {b : List BackingRecord} {s id : Nat} {v : Pkg}
    (h : (b.find? (fun r => r.storage == s && r.id == id)).isSome = true) :
    backingGetById
      (b.map (fun r => if r.storage == s && r.id == id then
        { r with content := v } else r)) s id = some v := by
  induction b with
  | nil => simp [List.find?] at h
  | cons x xs ih =>
    cases hp : (x.storage == s && x.id == id) with
    | true =>
      unfold backingGetById
      simp only [List.map_cons, if_pos hp]
      have hp' : (({ x with content := v } : BackingRecord).storage == s
          && ({ x with content := v } : BackingRecord).id == id) = true := by
        simpa using hp
      simp [List.find?_cons, hp']
    | false =>
      unfold backingGetById at ih ⊢
      simp only [List.find?_cons, hp] at h
      have hx : (if (x.storage == s && x.id == id) = true then
          ({ x with content := v } : BackingRecord) else x) = x :=
        if_neg (by simp [hp])
      rw [List.map_cons, hx]
      simp only [List.find?_cons, hp]
      exact ih h

/-- After `put`, looking up the returned ID yields the written value. -/
theorem backingGetById_backingPut (b : List BackingRecord) (s id : Nat) (v : Pkg) :
    backingGetById (backingPut b s id v).2 s (backingPut b s id v).1 = some v := by
  by_cases hid : id = 0
  · subst hid
    have hput : backingPut b s 0 v
        = (backingMaxId b s + 1, b ++ [⟨s, backingMaxId b s + 1, v⟩]) := by
      unfold backingPut; simp
    rw [hput]
    unfold backingGetById
    rw [find?_append_of_none (find?_fresh_id_eq_none b s)]
    rw [List.find?_cons_of_pos _ (by simp)]
    rfl
  · unfold backingPut
    rw [if_pos hid]
    by_cases hf : (b.find? (fun r => r.storage == s && r.id == id)).isSome = true
    · rw [if_pos hf]
      exact getById_map_replace hf
    · rw [if_neg hf]
      have hnone : b.find? (fun r => r.storage == s && r.id == id) = none := by
        cases hcase : b.find? (fun r => r.storage == s && r.id == id) with
        | none => rfl
        | some r => rw [hcase] at hf; simp at hf
      unfold backingGetById
      rw [find?_append_of_none hnone]
      rw [List.find?_cons_of_pos _ (by simp)]
      rfl

/-- A matching cache entry carries exactly the queried key. -/
theorem ref_eq_of_matchesRef {e : CacheEntry} {s : Nat} {n : String}
    (h : matchesRef e s n = true) : e.ref = ⟨s, n⟩ := by
  cases e with
  | mk ref id ptr =>
    cases ref with
    | mk st nm =>
      simp only [matchesRef, Bool.and_eq_true, beq_iff_eq] at h
      simp [h.1, h.2]

/-- An entry built from a key matches that key. -/
theorem matchesRef_self (s : Nat) (n : String) (id ptr : Nat) :
    matchesRef ⟨⟨s, n⟩, id, ptr⟩ s n = true := by
  simp [matchesRef]

/-- Writing through a pointer is observed at that pointer. -/
theorem heapSet_self (h : Nat → Pkg) (p : Nat) (v : Pkg) : heapSet h p v p = v := by
  simp [heapSet]

/-- C3: over the `StorageCache` model, `store(s, e, force := false)` followed
immediately by `retrieve(s, e.name)` returns the same entry object `e`
(pointer `entryPtr`, hence an entry equal to `e`) together with the same
non-zero ID that `store` reported; and `invalidate(s, name)` followed by
`retrieve(s, name)` returns `(0, none)`.  Hypotheses: the cache capacity is
positive, cached IDs are non-zero, and there is at most one cache entry and
one backing record per key — invariants the real container's unique indices
guarantee. -/
theorem c3_store_retrieve_invalidate (limit s entryPtr : Nat) (nm : String)
    (st : CacheState)
    (hlim : 0 < limit)
    (hids : ∀ ce ∈ st.cache, ce.id ≠ 0)
    (hcuniq : st.cache.countP (fun e => matchesRef e s nm) ≤ 1)
    (hbuniq : st.backing.countP
      (fun r => r.storage == s && r.content.name == nm) ≤ 1) :
    ((StorageCache.retrieve limit (StorageCache.store limit st s entryPtr false).2
        s (st.heap entryPtr).name).1
      = ((StorageCache.store limit st s entryPtr false).1.id, some entryPtr)
     ∧ (StorageCache.store limit st s entryPtr false).1.id ≠ 0)
    ∧ (StorageCache.retrieve limit (StorageCache.invalidate st s nm).2 s nm).1
      = (0, none) := by
  constructor
  · cases hf : st.cache.find? (fun e => matchesRef e s (st.heap entryPtr).name) with
    | some ce =>
      have hpred := List.find?_some hf
      have hid := hids ce (List.mem_of_find?_eq_some hf)
      cases hb : (ce.ptr == entryPtr) with
      | true =>
        have heq : ce.ptr = entryPtr := by simpa using hb
        simp only [StorageCache.store, hf, Bool.not_false, Bool.and_true, hb,
          if_true]
        simp only [StorageCache.retrieve, List.find?_cons, hpred]
        exact ⟨by rw [heq], hid⟩
      | false =>
        have hpred' : matchesRef { ce with ptr := entryPtr } s
            (st.heap entryPtr).name = true := by simpa [matchesRef] using hpred
        simp only [StorageCache.store, hf, Bool.not_false, Bool.and_true, hb,
          Bool.false_eq_true, if_false]
        simp only [StorageCache.retrieve, List.find?_cons, hpred']
        rw [backingPut_fst_of_ne_zero hid]
        exact ⟨rfl, hid⟩
    | none =>
      simp only [StorageCache.store, hf]
      cases hbg : backingGetByName st.backing s (st.heap entryPtr).name with
      | some old =>
        simp only [hbg]
        obtain ⟨t, ht⟩ := insert_cons_of_find?_none
          (e := ⟨⟨s, (st.heap entryPtr).name⟩,
            (backingPut st.backing s 0
              (Package.addDepsAndProvidesFromOtherPackage (st.heap entryPtr)
                old.2).2).1, entryPtr⟩) hf hlim
        simp only [StorageCache.retrieve, ht, List.find?_cons,
          matchesRef_self]
        rw [backingPut_fst_zero]
        exact ⟨trivial, Nat.succ_ne_zero _⟩
      | none =>
        simp only [hbg]
        obtain ⟨t, ht⟩ := insert_cons_of_find?_none
          (e := ⟨⟨s, (st.heap entryPtr).name⟩,
            (backingPut st.backing s 0 (st.heap entryPtr)).1, entryPtr⟩) hf hlim
        simp only [StorageCache.retrieve, ht, List.find?_cons,
          matchesRef_self]
        rw [backingPut_fst_zero]
        exact ⟨trivial, Nat.succ_ne_zero _⟩
  · have hcnone : (st.cache.eraseP (fun e => matchesRef e s nm)).find?
        (fun e => matchesRef e s nm) = none := find?_eraseP_eq_none hcuniq
    cases hbg : backingGetByName st.backing s nm with
    | some p =>
      have hbnone : backingGetByName
          (st.backing.eraseP (fun r => r.storage == s && r.content.name == nm))
          s nm = none := by
        unfold backingGetByName
        rw [find?_eraseP_eq_none hbuniq]
        rfl
      simp only [StorageCache.invalidate, hbg]
      simp only [StorageCache.retrieve, hcnone, hbnone]
    | none =>
      simp only [StorageCache.invalidate, hbg]
      simp only [StorageCache.retrieve, hcnone, hbg]

/-- State with empty cache and backing store used to witness C3. -/
def stEmptyCache : CacheState :=
  { heap := fun _ => default, nextPtr := 0, cache := [], backing := [] }

/-- Witness for C3 at a concrete empty state. -/
theorem c3_store_retrieve_witness :
    ((StorageCache.retrieve 1 (StorageCache.store 1 stEmptyCache 0 0 false).2
        0 (stEmptyCache.heap 0).name).1
      = ((StorageCache.store 1 stEmptyCache 0 0 false).1.id, some 0)
     ∧ (StorageCache.store 1 stEmptyCache 0 0 false).1.id ≠ 0)
    ∧ (StorageCache.retrieve 1 (StorageCache.invalidate stEmptyCache 0 "x").2
        0 "x").1 = (0, none) :=
  c3_store_retrieve_invalidate 1 0 0 "x" stEmptyCache (by decide) (by decide)
    (by decide) (by decide)

/-- C2 (amended): `store(storage, entry, force)` returns `updated = false` and
leaves the backing store and heap unchanged if and only if a cached entry with
the same identity exists that is the *very same entry object* (shared-pointer
identity, `cacheEntry->entry == entry`) and `force` is false; in every other
case it merges contents-derived fields of the previous entry into the new one,
writes the entry via the read-write transaction, updates the cache (the entry
sits at the MRU front under the queried key and new pointer) and reports
`updated = true`. -/
theorem c2_store_noop_iff (limit s entryPtr : Nat) (force : Bool)
    (st : CacheState) (hlim : 0 < limit) :
    ((StorageCache.store limit st s entryPtr force).1.updated = false ↔
      (∃ ce, st.cache.find? (fun e => matchesRef e s (st.heap entryPtr).name)
          = some ce ∧ ce.ptr = entryPtr) ∧ force = false)
    ∧ ((StorageCache.store limit st s entryPtr force).1.updated = false →
        (StorageCache.store limit st s entryPtr force).2.backing = st.backing
        ∧ (StorageCache.store limit st s entryPtr force).2.heap = st.heap)
    ∧ ((StorageCache.store limit st s entryPtr force).1.updated = true →
        backingGetById (StorageCache.store limit st s entryPtr force).2.backing
            s (StorageCache.store limit st s entryPtr force).1.id
          = some ((StorageCache.store limit st s entryPtr force).2.heap entryPtr)
        ∧ ∃ front rest,
            (StorageCache.store limit st s entryPtr force).2.cache
              = front :: rest
            ∧ front.ref = ⟨s, (st.heap entryPtr).name⟩
            ∧ front.ptr = entryPtr) := by
  cases hf : st.cache.find? (fun e => matchesRef e s (st.heap entryPtr).name) with
  | some ce =>
    cases hcond : (ce.ptr == entryPtr && !force) with
    | true =>
      have hcond' : ce.ptr = entryPtr ∧ force = false := by
        simpa [Bool.and_eq_true, Bool.not_eq_true'] using hcond
      refine ⟨?_, ?_, ?_⟩
      · simp only [StorageCache.store, hf, hcond, if_true]
        exact iff_of_true trivial ⟨⟨ce, rfl, hcond'.1⟩, hcond'.2⟩
      · intro _
        simp only [StorageCache.store, hf, hcond, if_true]
        exact ⟨trivial, trivial⟩
      · simp only [StorageCache.store, hf, hcond, if_true]
        intro h
        cases h
    | false =>
      refine ⟨?_, ?_, ?_⟩
      · simp only [StorageCache.store, hf, hcond, Bool.false_eq_true, if_false]
        refine iff_of_false (by simp) ?_
        rintro ⟨⟨ce', hce', hptr⟩, hforce⟩
        injection hce' with hce'
        subst hce'
        rw [hptr] at hcond
        subst hforce
        simp at hcond
      · simp only [StorageCache.store, hf, hcond, Bool.false_eq_true, if_false]
        intro h
        cases h
      · intro _
        simp only [StorageCache.store, hf, hcond, Bool.false_eq_true, if_false]
        refine ⟨?_, ⟨{ ce with ptr := entryPtr }, _, rfl, ?_, rfl⟩⟩
        · rw [heapSet_self]
          exact backingGetById_backingPut _ _ _ _
        · exact ref_eq_of_matchesRef (by simpa using List.find?_some hf)
  | none =>
    cases hbg : backingGetByName st.backing s (st.heap entryPtr).name with
    | some old =>
      refine ⟨?_, ?_, ?_⟩
      · simp only [StorageCache.store, hf, hbg]
        exact iff_of_false (by simp) (by rintro ⟨⟨ce', hce', _⟩, _⟩; cases hce')
      · simp only [StorageCache.store, hf, hbg]
        intro h
        cases h
      · intro _
        simp only [StorageCache.store, hf, hbg]
        obtain ⟨t, ht⟩ := insert_cons_of_find?_none
          (e := ⟨⟨s, (st.heap entryPtr).name⟩,
            (backingPut st.backing s 0
              (Package.addDepsAndProvidesFromOtherPackage (st.heap entryPtr)
                old.2).2).1, entryPtr⟩) hf hlim
        refine ⟨?_, ⟨_, t, ht, rfl, rfl⟩⟩
        rw [heapSet_self]
        exact backingGetById_backingPut _ _ _ _
    | none =>
      refine ⟨?_, ?_, ?_⟩
      · simp only [StorageCache.store, hf, hbg]
        exact iff_of_false (by simp) (by rintro ⟨⟨ce', hce', _⟩, _⟩; cases hce')
      · simp only [StorageCache.store, hf, hbg]
        intro h
        cases h
      · intro _
        simp only [StorageCache.store, hf, hbg]
        obtain ⟨t, ht⟩ := insert_cons_of_find?_none
          (e := ⟨⟨s, (st.heap entryPtr).name⟩,
            (backingPut st.backing s 0 (st.heap entryPtr)).1, entryPtr⟩) hf hlim
        exact ⟨backingGetById_backingPut _ _ _ _, ⟨_, t, ht, rfl, rfl⟩⟩

/-- Package value used by the C2 scenarios. -/
def pkgA : Pkg := { name := "a", version := "1" }

/-- State whose cache holds an entry object (address 1) that is byte-identical
to, but a different object than, the entry at address 2. -/
def stByteIdentical : CacheState :=
  { heap := fun p => if p = 1 then pkgA else if p = 2 then pkgA else default,
    nextPtr := 3,
    cache := [⟨⟨0, "a"⟩, 5, 1⟩],
    backing := [⟨0, 5, pkgA⟩] }

/-- Counterexample to C2 as stated: the cached entry's content is
byte-identical to the stored entry's content and `force` is false, yet `store`
does not take the no-op path — it reports `updated = true` — because the code
compares the two `std::shared_ptr`s (object identity), not the bytes. -/
theorem c2_store_counterexample :
    stByteIdentical.heap 1 = stByteIdentical.heap 2
    ∧ stByteIdentical.cache.find?
        (fun e => matchesRef e 0 (stByteIdentical.heap 2).name)
        = some ⟨⟨0, "a"⟩, 5, 1⟩
    ∧ (StorageCache.store 4 stByteIdentical 0 2 false).1.updated = true := by
  refine ⟨rfl, rfl, ?_⟩
  decide

/-- State whose cache holds exactly the entry object at address 1. -/
def stSameObject : CacheState :=
  { heap := fun p => if p = 1 then pkgA else default,
    nextPtr := 2,
    cache := [⟨⟨0, "a"⟩, 5, 1⟩],
    backing := [⟨0, 5, pkgA⟩] }

/-- Witness for the amended C2 at a concrete state: storing the very same
object again without `force` is a no-op. -/
theorem c2_store_noop_witness :
    0 < 4 ∧ (StorageCache.store 4 stSameObject 0 1 false).1.updated = false :=
  ⟨by decide,
   (c2_store_noop_iff 4 0 1 false stSameObject (by decide)).1.mpr
     ⟨⟨⟨⟨0, "a"⟩, 5, 1⟩, by decide, rfl⟩, rfl⟩⟩

/-! ## Theorems about the meta-info table, error accumulation and exit codes -/

/-- C10: for every build-action type listed in the meta-info table, looking up
the type slug of `typeInfoForId t` via `typeInfoForName` returns exactly the
metadata record whose id is `t`; and `typeInfoForName` of any string that is
not a listed type slug returns the record for `BuildActionType.Invalid`. -/
theorem c10_typeInfo_lookup_roundtrip :
    (∀ t : BuildActionType,
      typeInfoForName (typeInfoForId t).type = typeInfoForId t
      ∧ (typeInfoForId t).id = t)
    ∧ ∀ s : String, s ∉ buildActionTypes.map (fun i => i.type) →
        typeInfoForName s = typeInfoForId BuildActionType.Invalid := by
  constructor
  · intro t
    cases t <;> exact ⟨by decide, by decide⟩
  · intro s hs
    unfold typeInfoForName
    cases hfind : buildActionTypes.find? (fun i => i.type == s) with
    | none => rfl
    | some r =>
      have hmem := List.mem_of_find?_eq_some hfind
      have hp : (r.type == s) = true := by simpa using List.find?_some hfind
      rw [beq_iff_eq] at hp
      exact absurd (hp ▸ List.mem_map_of_mem (fun i => i.type) hmem) hs

/-- Witness for C10 at a concrete unlisted slug. -/
theorem c10_typeInfo_witness :
    "no-such-slug" ∉ buildActionTypes.map (fun i => i.type)
    ∧ typeInfoForName "no-such-slug" = typeInfoForId BuildActionType.Invalid :=
  ⟨by decide, c10_typeInfo_lookup_roundtrip.2 "no-such-slug" (by decide)⟩

/-- C4: for every run of `ReloadLibraryDependencies` that reaches its
conclusion, per-package parse errors are accumulated into `messages.errors`
without terminating the parsing loop (every package is processed and the
errors are exactly the prior errors followed by the per-package ones), and the
action's result is `Success` iff the error list is empty — `Failure` iff at
least one error was recorded. -/
theorem c4_errors_accumulate_and_conclude (m : BuildActionMessages)
    (outs : List (Option String)) :
    (processPackages m outs).2 = outs.length
    ∧ (processPackages m outs).1.errors = m.errors ++ outs.filterMap id
    ∧ (concludeResult (processPackages m outs).1 = BuildActionResult.Success
        ↔ (processPackages m outs).1.errors = []) := by
  refine ⟨?_, ?_, ?_⟩
  · induction outs generalizing m with
    | nil => rfl
    | cons o rest ih => simp [processPackages, ih]
  · induction outs generalizing m with
    | nil => simp [processPackages]
    | cons o rest ih =>
      cases o with
      | none => simp [processPackages, processPackage, ih]
      | some e => simp [processPackages, processPackage, ih]
  · unfold concludeResult
    by_cases h : (processPackages m outs).1.errors = []
    · simp [h]
    · simp [h]

/-- C5: the exit codes 11 (response JSON parse failure) and 12 (display
failure) are recorded into `returnCode` by `handleResponse`, but the client
`main` ends with `return 0;`, discarding them — the process exits 0 for those
invocations; only the config-error code 10 (and 0) are actually returned. -/
theorem c5_client_exit_code_bug :
    clientMainExitCode true ResponseOutcome.ParseError = 0
    ∧ handleResponseReturnCode ResponseOutcome.ParseError 0 = 11
    ∧ clientMainExitCode true ResponseOutcome.DisplayError = 0
    ∧ handleResponseReturnCode ResponseOutcome.DisplayError 0 = 12
    ∧ clientMainExitCode false ResponseOutcome.ParseError = 10
    ∧ ∀ o : ResponseOutcome, clientMainExitCode true o = 0 :=
  ⟨rfl, rfl, rfl, rfl, rfl, fun _ => rfl⟩

/-! ## Database dependency indices and the ReloadLibraryDependencies
write-back -/

/-- Modelled from the spec: a `DependencySet` maps a dependency name to the
relevant packages (reduced to package names; the version constraint plays no
role in the reachability claims).  Insertion is idempotent over
(name, package). -/
def depSetAdd (idx : List (String × List String)) (depName pkgName : String) :
    List (String × List String) :=
  match idx.find? (fun e => e.1 == depName) with
  | some _ => idx.map (fun e => if e.1 == depName then
      (e.1, if e.2.contains pkgName then e.2 else e.2 ++ [pkgName]) else e)
  | none => idx ++ [(depName, [pkgName])]

/-- Modelled from the spec: removal from a `DependencySet` is
per-(name, package). -/
def depSetRemove (idx : List (String × List String)) (depName pkgName : String) :
    List (String × List String) :=
  idx.map (fun e => if e.1 == depName then
    (e.1, e.2.filter (fun p => p ≠ pkgName)) else e)

/-- Whether the index lists the package under the dependency name. -/
def depSetHas (idx : List (String × List String)) (depName pkgName : String) :
    Bool :=
  match idx.find? (fun e => e.1 == depName) with
  | some e => e.2.contains pkgName
  | none => false

/-- Embeds the `Database` fields relevant to the dependency-index claims
(`database.h`): the package map and the four derived indices. -/
structure Database where
  name : String := ""
  arch : String := "x86_64"
  packages : List (String × Pkg) := []
  providedDeps : List (String × List String) := []
  requiredDeps : List (String × List String) := []
  providedLibs : List (String × List String) := []
  requiredLibs : List (String × List String) := []
  deriving DecidableEq, Repr

/-- Modelled from the spec: `Database::removePackageDependencies` is declared
in `database.h` but implemented outside the provided sources.  Per the spec's
invariants, it removes all of the package's projections from the four
dependency indices: from `providedDeps` under its `name` and each of its
`provides[]`, from `requiredDeps` under each dependency, and from
`providedLibs`/`requiredLibs` under each `libprovides[]`/`libdepends[]`. -/
def Database.removePackageDependencies (db : Database) (pkg : Pkg) : Database :=
  { db with
    providedDeps := pkg.provides.foldl
      (fun idx d => depSetRemove idx d pkg.name)
      (depSetRemove db.providedDeps pkg.name pkg.name),
    requiredDeps := pkg.dependencies.foldl
      (fun idx d => depSetRemove idx d pkg.name) db.requiredDeps,
    providedLibs := pkg.libprovides.foldl
      (fun idx l => depSetRemove idx l pkg.name) db.providedLibs,
    requiredLibs := pkg.libdepends.foldl
      (fun idx l => depSetRemove idx l pkg.name) db.requiredLibs }

/-- Modelled from the spec: `Database::addPackageDependencies` registers all
of the package's projections in the four dependency indices (the symmetric
counterpart of `removePackageDependencies`). -/
def Database.addPackageDependencies (db : Database) (pkg : Pkg) : Database :=
  { db with
    providedDeps := pkg.provides.foldl
      (fun idx d => depSetAdd idx d pkg.name)
      (depSetAdd db.providedDeps pkg.name pkg.name),
    requiredDeps := pkg.dependencies.foldl
      (fun idx d => depSetAdd idx d pkg.name) db.requiredDeps,
    providedLibs := pkg.libprovides.foldl
      (fun idx l => depSetAdd idx l pkg.name) db.providedLibs,
    requiredLibs := pkg.libdepends.foldl
      (fun idx l => depSetAdd idx l pkg.name) db.requiredLibs }

/-- The reachability invariant of the spec: the package is listed in
`providedDeps` under its name and each of its provides, in `providedLibs`
under each libprovides, and symmetrically for the required indices. -/
def pkgReachable (db : Database) (pkg : Pkg) : Bool :=
  depSetHas db.providedDeps pkg.name pkg.name
  && pkg.provides.all (fun d => depSetHas db.providedDeps d pkg.name)
  && pkg.dependencies.all (fun d => depSetHas db.requiredDeps d pkg.name)
  && pkg.libprovides.all (fun l => depSetHas db.providedLibs l pkg.name)
  && pkg.libdepends.all (fun l => depSetHas db.requiredLibs l pkg.name)

/-- Embeds `PackageToConsider` of the reload action: the package info parsed
from the binary's contents plus the binary's modification time. -/
structure PackageToConsider where
  info : Pkg
  lastModified : Nat
  deriving DecidableEq, Repr

/-- Embeds one iteration of the write-back loop of
`ReloadLibraryDependencies::loadPackageInfoFromContents`
(`reloadlibrarydependencies.cpp` lines 312-336) against one database: skip
unless the info was parsed from package contents; look the package up again
(skip if it was removed meanwhile); call `removePackageDependencies`; merge
via `addDepsAndProvidesFromOtherPackage` and, when the merge reports that the
identity no longer matches, `continue` — without re-adding the dependencies;
otherwise bump the timestamp to the binary's mtime if newer and call
`addPackageDependencies` on the updated package. -/
def reloadWriteBackPackage (db : Database) (p : PackageToConsider) : Database :=
  if p.info.origin ≠ PkgOrigin.PackageContents then db
  else
    match db.packages.find? (fun kv => kv.1 == p.info.name) with
    | none => db
    | some kv =>
      let db1 := db.removePackageDependencies kv.2
      let merged := Package.addDepsAndProvidesFromOtherPackage kv.2 p.info
      if !merged.1 then db1
      else
        let updated := { merged.2 with
          timestamp := if merged.2.timestamp < p.lastModified then p.lastModified
            else merged.2.timestamp }
        let newPackages := db1.packages.map
          (fun e => if e.1 == p.info.name then (e.1, updated) else e)
        let db2 := { db1 with packages := newPackages }
        db2.addPackageDependencies updated

/-- Embeds the write-back phase over all parsed packages of one database. -/
def reloadWriteBack (db : Database) (parsed : List PackageToConsider) :
    Database :=
  parsed.foldl reloadWriteBackPackage db

/-- The stored package of the C1 failing input. -/
def pkgP : Pkg :=
  { name := "p", version := "1", buildDate := 10,
    dependencies := ["dep"], provides := ["prov"],
    libprovides := ["libfoo.so"], libdepends := ["libbar.so"],
    origin := PkgOrigin.DatabaseFileList, timestamp := 0 }

/-- A database holding `pkgP` with consistent dependency indices. -/
def dbC1 : Database :=
  Database.addPackageDependencies { name := "foo", packages := [("p", pkgP)] }
    pkgP

/-- Contents-parsed info for `p` whose version no longer matches the stored
package. -/
def parsedMismatch : PackageToConsider :=
  { info := { name := "p", version := "2", buildDate := 10,
              libprovides := ["libnew.so"],
              origin := PkgOrigin.PackageContents },
    lastModified := 5 }

/-- C1 evaluated at the failing input: the reachability invariant holds
before the write-back; the identity merge reports a mismatch; afterwards the
package is still in `packages` but absent from the dependency indices —
`removePackageDependencies` ran and the `continue` skipped
`addPackageDependencies`, so the invariant the claim asserts is broken. -/
theorem c1_writeback_invariant_broken :
    pkgReachable dbC1 pkgP = true
    ∧ (Package.addDepsAndProvidesFromOtherPackage pkgP parsedMismatch.info).1
        = false
    ∧ (reloadWriteBack dbC1 [parsedMismatch]).packages = [("p", pkgP)]
    ∧ pkgReachable (reloadWriteBack dbC1 [parsedMismatch]) pkgP = false := by
  decide

/-! ## RemovePackages: moving removed packages to the archive -/

/-- One located package as `RemovePackages::movePackagesToArchive` iterates
it: its name, whether a storage location (symlink target) exists, and whether
the filesystem operations of its `try` block throw. -/
structure ArchiveAttempt where
  packageName : String
  hasStorageLocation : Bool
  fails : Bool
  deriving DecidableEq, Repr

/-- State of `movePackagesToArchive`: the result lists plus the
`processedPackageIterator`, modelled as an index into `processedPackages`. -/
structure ArchiveState where
  processedPackages : List String
  failedPackages : List (String × String)
  iteratorIdx : Nat
  deriving DecidableEq, Repr

/-- Embeds one loop iteration of `RemovePackages::movePackagesToArchive`
(part_004 lines 186-208): on a filesystem error the entry at the iterator is
erased from `processedPackages` and the package is appended to
`failedPackages`; on success the iterator advances only when a storage
location existed — the `continue` for packages without one skips the
increment. -/
def RemovePackages.archiveStep (st : ArchiveState) (loc : ArchiveAttempt) :
    ArchiveState :=
  if loc.fails then
    { st with
      processedPackages := st.processedPackages.eraseIdx st.iteratorIdx,
      failedPackages := st.failedPackages
        ++ [(loc.packageName, "unable to archive")] }
  else if loc.hasStorageLocation then
    { st with iteratorIdx := st.iteratorIdx + 1 }
  else
    st

/-- Embeds `RemovePackages::movePackagesToArchive` over all located packages,
starting from the `processedPackages` list built in `run()` (one entry per
located package, in order). -/
def RemovePackages.movePackagesToArchive (locs : List ArchiveAttempt)
    (processed : List String) : ArchiveState :=
  locs.foldl RemovePackages.archiveStep
    { processedPackages := processed, failedPackages := [], iteratorIdx := 0 }

/-- C8 evaluated at the failing input: package "a" archives successfully (no
storage location), then package "b" fails to archive.  Because the successful
iteration did not advance the iterator, the failure erases "a" — the
successful package — from `processedPackages` and leaves the failed "b" in
it, contradicting the all-or-nothing claim (which demands processed = ["a"],
failed = ["b"]). -/
theorem c8_archive_flips_wrong_package :
    (RemovePackages.movePackagesToArchive
      [⟨"a", false, false⟩, ⟨"b", false, true⟩] ["a", "b"]).processedPackages
      = ["b"]
    ∧ (RemovePackages.movePackagesToArchive
      [⟨"a", false, false⟩, ⟨"b", false, true⟩] ["a", "b"]).failedPackages
      = [("b", "unable to archive")]
    ∧ "a" ∉ (RemovePackages.movePackagesToArchive
      [⟨"a", false, false⟩, ⟨"b", false, true⟩] ["a", "b"]).processedPackages := by
  decide

/-! ## CleanRepository: the filesystem phase and the DryRun flag -/

/-- Embeds the `RepoDirType` enum local to `CleanRepository::run`. -/
inductive RepoDirType
  | New
  | ArchSpecific
  | Any
  | Src
  deriving DecidableEq, Repr

/-- Embeds one entry of the `repoDirs` map as it stands before the
"do the actual file system operations" loop: the canonical path, the junk
files flagged for deletion, the stale packages flagged for archiving
(with the currently referenced file names), and the directory type. -/
structure RepoDir where
  canonicalPath : String
  toDelete : List String := []
  toArchive : List (String × String) := []
  type : RepoDirType := RepoDirType.New
  deriving DecidableEq, Repr

/-- Filesystem state touched by the loop: the set of files and the set of
directories (as path lists).  Filesystem operations are modelled as always
succeeding; the error paths of the `catch` blocks only add messages and do
not mutate the filesystem. -/
structure Fs where
  files : List String
  dirs : List String
  deriving DecidableEq, Repr

/-- Note text of a performed/recorded deletion (part_004 line 688). -/
def deleteNote (f : String) : String := "Deleted " ++ f

/-- Note text of a performed/recorded archival (part_004 lines 709-710). -/
def archiveNote (fr : String × String) : String :=
  "Archived " ++ fr.1 ++ " (current version: "
    ++ (if fr.2 = "" then "removed" else fr.2) ++ ")"

/-- Deleting one junk file (guarded by the dry-run flag, part_004 lines
683-686). -/
def deleteStep (dryRun : Bool) (fs : Fs) (f : String) : Fs :=
  if dryRun then fs else { fs with files := fs.files.erase f }

/-- Renaming one stale package into the archive directory (guarded by the
dry-run flag, part_004 lines 704-707). -/
def archiveStep (dryRun : Bool) (archiveDir : String) (fs : Fs) (f : String) :
    Fs :=
  if dryRun then fs
  else { fs with files := (fs.files.erase f) ++ [archiveDir ++ "/" ++ f] }

/-- Embeds the per-directory body of the "do the actual file system
operations" loop of `CleanRepository::run` (part_004 lines 674-716): source
repos are skipped; each flagged junk file is deleted (unless dry run) and
noted; the `archive` directory is created when missing — this
`create_directory` call is *not* guarded by the dry-run flag; each flagged
package is renamed into the archive directory (unless dry run) and noted. -/
def cleanRepoDir (dryRun : Bool) (acc : Fs × List String) (d : RepoDir) :
    Fs × List String :=
  if d.type = RepoDirType.Src then acc
  else
    let afterDelete := d.toDelete.foldl
      (fun (p : Fs × List String) f =>
        (deleteStep dryRun p.1 f, p.2 ++ [deleteNote f])) acc
    let archiveDir := d.canonicalPath ++ "/archive"
    let withArchiveDir :=
      if afterDelete.1.dirs.contains archiveDir then afterDelete.1
      else { afterDelete.1 with dirs := afterDelete.1.dirs ++ [archiveDir] }
    d.toArchive.foldl
      (fun (p : Fs × List String) fr =>
        (archiveStep dryRun archiveDir p.1 fr.1, p.2 ++ [archiveNote fr]))
      (withArchiveDir, afterDelete.2)

/-- Embeds the filesystem phase of `CleanRepository::run` over all repo
directories. -/
def cleanRepositoryFsPhase (dryRun : Bool) (dirs : List RepoDir) (fs : Fs)
    (notes : List String) : Fs × List String :=
  dirs.foldl (cleanRepoDir dryRun) (fs, notes)

/-- Stated from the spec's words, for comparison with the embedded loop: one
note per deletion or archival the action would perform, in order, skipping
source repos (which the action does not touch in either mode). -/
def expectedDryRunNotes : List RepoDir → List String
  | [] => []
  | d :: rest =>
    (if d.type = RepoDirType.Src then []
     else d.toDelete.map deleteNote ++ d.toArchive.map archiveNote)
    ++ expectedDryRunNotes rest

/-- A repo directory with one stale package and no archive directory yet. -/
def repoDirR : RepoDir :=
  { canonicalPath := "r", toArchive := [("old.pkg.tar", "")],
    type := RepoDirType.ArchSpecific }

/-- Filesystem before the C6 dry run. -/
def fsBeforeClean : Fs := { files := ["old.pkg.tar"], dirs := ["r"] }

/-- Counterexample to C6 as stated: a dry run over a repo directory whose
`archive` directory does not exist yet creates that directory — the
filesystem state after the run differs from the state before — because the
`create_directory` call (part_004 lines 696-697) is not guarded by
`m_dryRun`.  Files are untouched and the would-be archival is noted. -/
theorem c6_dry_run_counterexample :
    (cleanRepositoryFsPhase true [repoDirR] fsBeforeClean []).1 ≠ fsBeforeClean
    ∧ (cleanRepositoryFsPhase true [repoDirR] fsBeforeClean []).1.dirs
        = ["r", "r/archive"]
    ∧ (cleanRepositoryFsPhase true [repoDirR] fsBeforeClean []).1.files
        = fsBeforeClean.files
    ∧ (cleanRepositoryFsPhase true [repoDirR] fsBeforeClean []).2
        = ["Archived old.pkg.tar (current version: removed)"] := by
  decide

/-- Behaviour of one directory under a dry run: files untouched, the expected
notes appended, and the directory set at most extended by that directory's
archive path. -/
theorem cleanRepoDir_dry_run (p : Fs × List String) (d : RepoDir) :
    (cleanRepoDir true p d).1.files = p.1.files
    ∧ (cleanRepoDir true p d).2 = p.2 ++
        (if d.type = RepoDirType.Src then []
         else d.toDelete.map deleteNote ++ d.toArchive.map archiveNote)
    ∧ ((cleanRepoDir true p d).1.dirs = p.1.dirs
        ∨ (cleanRepoDir true p d).1.dirs
            = p.1.dirs ++ [d.canonicalPath ++ "/archive"]) := by
  by_cases hsrc : d.type = RepoDirType.Src
  · simp [cleanRepoDir, hsrc]
  · have hdel : ∀ (l : List String) (q : Fs × List String),
        l.foldl (fun (p : Fs × List String) f =>
          (deleteStep true p.1 f, p.2 ++ [deleteNote f])) q
        = (q.1, q.2 ++ l.map deleteNote) := by
      intro l
      induction l with
      | nil => intro q; simp
      | cons f rest ih =>
        intro q
        simp only [List.foldl_cons, List.map_cons]
        rw [ih]
        simp [deleteStep]
    have harch : ∀ (l : List (String × String)) (ad : String)
        (fs : Fs) (ns : List String),
        l.foldl (fun (p : Fs × List String) fr =>
          (archiveStep true ad p.1 fr.1, p.2 ++ [archiveNote fr])) (fs, ns)
        = (fs, ns ++ l.map archiveNote) := by
      intro l ad
      induction l with
      | nil => intro fs ns; simp
      | cons fr rest ih =>
        intro fs ns
        simp only [List.foldl_cons, List.map_cons]
        rw [archiveStep, if_pos rfl]
        rw [ih]
        simp
    unfold cleanRepoDir
    rw [if_neg hsrc]
    rw [hdel]
    dsimp only
    by_cases hdir : (p.1.dirs.contains (d.canonicalPath ++ "/archive")) = true
    · rw [if_pos hdir, harch]
      exact ⟨rfl, by simp [hsrc], Or.inl rfl⟩
    · rw [if_neg hdir, harch]
      exact ⟨rfl, by simp [hsrc], Or.inr rfl⟩

/-- C6 (amended): a dry run of the filesystem phase deletes and renames no
file — the file set is unchanged — and appends to `messages.notes` exactly
one entry per deletion or archival the action would have performed; however
the `archive/` directory of each processed repo directory is still created
when missing, so the directory set may grow by such archive directories. -/
theorem c6_dry_run_amended (dirs : List RepoDir) (fs : Fs)
    (notes : List String) :
    (cleanRepositoryFsPhase true dirs fs notes).1.files = fs.files
    ∧ (cleanRepositoryFsPhase true dirs fs notes).2
        = notes ++ expectedDryRunNotes dirs
    ∧ ∀ p ∈ (cleanRepositoryFsPhase true dirs fs notes).1.dirs,
        p ∈ fs.dirs ∨ ∃ rd ∈ dirs, p = rd.canonicalPath ++ "/archive" := by
  induction dirs generalizing fs notes with
  | nil => simp [cleanRepositoryFsPhase, expectedDryRunNotes]
  | cons d rest ih =>
    obtain ⟨hfiles, hnotes, hdirs⟩ := cleanRepoDir_dry_run (fs, notes) d
    have hstep : cleanRepositoryFsPhase true (d :: rest) fs notes
        = cleanRepositoryFsPhase true rest (cleanRepoDir true (fs, notes) d).1
            (cleanRepoDir true (fs, notes) d).2 := by
      unfold cleanRepositoryFsPhase
      simp [List.foldl_cons]
    obtain ⟨ihf, ihn, ihd⟩ := ih (cleanRepoDir true (fs, notes) d).1
      (cleanRepoDir true (fs, notes) d).2
    refine ⟨?_, ?_, ?_⟩
    · rw [hstep, ihf, hfiles]
    · rw [hstep, ihn, hnotes]
      simp [expectedDryRunNotes, List.append_assoc]
    · intro q hq
      rw [hstep] at hq
      rcases ihd q hq with hmem | ⟨rd, hrd, heq⟩
      · rcases hdirs with hsame | happ
        · rw [hsame] at hmem
          exact Or.inl hmem
        · rw [happ] at hmem
          rcases List.mem_append.mp hmem with hmem | hmem
          · exact Or.inl hmem
          · refine Or.inr ⟨d, List.mem_cons_self d rest, ?_⟩
            simpa using hmem
      · exact Or.inr ⟨rd, List.mem_cons_of_mem d hrd, heq⟩

/-- Witness for the amended C6 at a concrete state: the dry run keeps the
files, records the expected note, and only adds the archive directory. -/
theorem c6_dry_run_witness :
    (cleanRepositoryFsPhase true [repoDirR] fsBeforeClean []).1.files
      = fsBeforeClean.files
    ∧ (cleanRepositoryFsPhase true [repoDirR] fsBeforeClean []).2
        = [] ++ expectedDryRunNotes [repoDirR]
    ∧ ("r/archive" ∈ (cleanRepositoryFsPhase true [repoDirR] fsBeforeClean
        []).1.dirs →
        "r/archive" ∈ fsBeforeClean.dirs
        ∨ ∃ rd ∈ [repoDirR], "r/archive" = rd.canonicalPath ++ "/archive") :=
  ⟨(c6_dry_run_amended [repoDirR] fsBeforeClean []).1,
   (c6_dry_run_amended [repoDirR] fsBeforeClean []).2.1,
   (c6_dry_run_amended [repoDirR] fsBeforeClean []).2.2 "r/archive"⟩

/-! ## MovePackages: copy phase, child processes and conclusion -/

/-- Embeds the outcome of one supervised child process (`ProcessResult`):
whether spawning failed (`errorCode`) and the exit code. -/
structure ProcessResult where
  errorCode : Bool
  exitCode : Int
  deriving DecidableEq, Repr

/-- A child process succeeded: no spawn error and exit code 0. -/
def ProcessResult.ok (r : ProcessResult) : Bool :=
  !r.errorCode && r.exitCode == 0

/-- Embeds the parts of `MovePackages`' state the claim is about: the located
packages with their `ok` flag after the copy loop, the result lists, and the
two error messages filled by the child-process handlers. -/
structure MoveState where
  locations : List (String × Bool)
  processedPackages : List String
  failedPackages : List (String × String)
  errorMessage : String
  addErrorMessage : String
  deriving DecidableEq, Repr

/-- Embeds one iteration of the copy loop of `MovePackages::run` (part_004
lines 230-258): a successful copy records the location with `ok = true` and
the package in `processedPackages`; a filesystem error (or refused absolute
symlink) records `ok = false` and a failed package. -/
def MovePackages.copyStep (st : MoveState) (nb : String × Bool) : MoveState :=
  if nb.2 then
    { st with locations := st.locations ++ [(nb.1, true)],
              processedPackages := st.processedPackages ++ [nb.1] }
  else
    { st with locations := st.locations ++ [(nb.1, false)],
              failedPackages := st.failedPackages
                ++ [(nb.1, "unable to copy to destination repo")] }

/-- Embeds the copy loop over all located packages. -/
def MovePackages.copyPhase (copyOutcomes : List (String × Bool)) : MoveState :=
  copyOutcomes.foldl MovePackages.copyStep
    { locations := [], processedPackages := [], failedPackages := [],
      errorMessage := "", addErrorMessage := "" }

/-- Embeds one iteration of the source-file deletion loop in
`MovePackages::handleRepoRemoveResult` (part_004 lines 303-317): packages
that were never copied are skipped; a failing deletion flips the package from
`processedPackages` (the `std::remove` erases every equal name) into
`failedPackages`. -/
def MovePackages.removeLocStep (removeFails : String → Bool) (acc : MoveState)
    (loc : String × Bool) : MoveState :=
  if !loc.2 then acc
  else if removeFails loc.1 then
    { acc with
      failedPackages := acc.failedPackages
        ++ [(loc.1, "unable to remove from source repo")],
      processedPackages := acc.processedPackages.filter (fun p => p ≠ loc.1) }
  else acc

/-- Embeds `MovePackages::handleRepoRemoveResult` (part_004 lines 285-318):
spawn errors and non-zero exit codes record `m_result.errorMessage` and
return; on success the copied files are deleted from the source repo. -/
def MovePackages.handleRepoRemoveResult (st : MoveState)
    (result : ProcessResult) (removeFails : String → Bool) : MoveState :=
  if result.errorCode then
    { st with errorMessage := "unable to remove packages" }
  else if result.exitCode ≠ 0 then
    { st with errorMessage := "unable to remove package: repo-remove returned with non-zero exit code" }
  else
    st.locations.foldl (MovePackages.removeLocStep removeFails) st

/-- Embeds `MovePackages::handleRepoAddResult` (part_004 lines 320-338):
spawn errors and non-zero exit codes record `m_addErrorMessage`; on success
there is nothing to do. -/
def MovePackages.handleRepoAddResult (st : MoveState)
    (result : ProcessResult) : MoveState :=
  if result.errorCode then
    { st with addErrorMessage := "unable to add packages" }
  else if result.exitCode ≠ 0 then
    { st with addErrorMessage := "unable to add packages: repo-add returned with non-zero exit code" }
  else st

/-- Embeds `MovePackages::conclude` (part_004 lines 340-372): without
repo-add/repo-remove errors the action succeeds iff no package failed;
otherwise every processed package is flipped into `failedPackages` and the
action fails. -/
def MovePackages.conclude (st : MoveState) : MoveState × BuildActionResult :=
  if st.addErrorMessage = "" ∧ st.errorMessage = "" then
    (st, if st.failedPackages.isEmpty then BuildActionResult.Success
      else BuildActionResult.Failure)
  else
    ({ st with
        failedPackages := st.failedPackages
          ++ st.processedPackages.map
            (fun p => (p, "repo-add/repo-remove error")),
        processedPackages := [] },
     BuildActionResult.Failure)

/-- Embeds the end-to-end flow of `MovePackages` after the packages were
located: the copy loop; the early failure when nothing could be copied
(part_004 lines 261-265, no child process is launched); otherwise both child
processes are handled (they run concurrently and are joined by the
`MultiSession` barrier; their handlers touch disjoint state, so sequential
composition is faithful) and the action concludes. -/
def MovePackages.run (copyOutcomes : List (String × Bool))
    (addResult removeResult : ProcessResult) (removeFails : String → Bool) :
    MoveState × BuildActionResult :=
  let st := MovePackages.copyPhase copyOutcomes
  if st.processedPackages.isEmpty then (st, BuildActionResult.Failure)
  else
    MovePackages.conclude
      (MovePackages.handleRepoAddResult
        (MovePackages.handleRepoRemoveResult st removeResult removeFails)
        addResult)

/-- Characterization of the copy loop from any starting state. -/
theorem copyPhase_foldl_spec (l : List (String × Bool)) :
    ∀ st : MoveState,
      (l.foldl MovePackages.copyStep st).errorMessage = st.errorMessage
      ∧ (l.foldl MovePackages.copyStep st).addErrorMessage = st.addErrorMessage
      ∧ (l.foldl MovePackages.copyStep st).processedPackages
          = st.processedPackages ++ (l.filter (fun nb => nb.2)).map Prod.fst := by
  induction l with
  | nil => intro st; simp
  | cons nb rest ih =>
    intro st
    cases hb : nb.2 with
    | true =>
      obtain ⟨ih1, ih2, ih3⟩ := ih (MovePackages.copyStep st nb)
      refine ⟨?_, ?_, ?_⟩
      · rw [List.foldl_cons, ih1]
        simp [MovePackages.copyStep, hb]
      · rw [List.foldl_cons, ih2]
        simp [MovePackages.copyStep, hb]
      · rw [List.foldl_cons, ih3]
        simp [MovePackages.copyStep, hb, List.filter_cons]
    | false =>
      obtain ⟨ih1, ih2, ih3⟩ := ih (MovePackages.copyStep st nb)
      refine ⟨?_, ?_, ?_⟩
      · rw [List.foldl_cons, ih1]
        simp [MovePackages.copyStep, hb]
      · rw [List.foldl_cons, ih2]
        simp [MovePackages.copyStep, hb]
      · rw [List.foldl_cons, ih3]
        simp [MovePackages.copyStep, hb, List.filter_cons]

/-- The deletion loop preserves the error messages, only grows the failed
list (in terms of failed names), and keeps every processed package either
processed or failed. -/
theorem removeFold_spec (removeFails : String → Bool)
    (locs : List (String × Bool)) :
    ∀ st : MoveState,
      (locs.foldl (MovePackages.removeLocStep removeFails) st).errorMessage
          = st.errorMessage
      ∧ (locs.foldl (MovePackages.removeLocStep removeFails) st).addErrorMessage
          = st.addErrorMessage
      ∧ (∀ q, q ∈ st.failedPackages.map Prod.fst →
          q ∈ (locs.foldl (MovePackages.removeLocStep removeFails)
            st).failedPackages.map Prod.fst)
      ∧ (∀ p, p ∈ st.processedPackages →
          p ∈ (locs.foldl (MovePackages.removeLocStep removeFails)
            st).processedPackages
          ∨ p ∈ (locs.foldl (MovePackages.removeLocStep removeFails)
            st).failedPackages.map Prod.fst) := by
  induction locs with
  | nil => intro st; exact ⟨rfl, rfl, fun q hq => hq, fun p hp => Or.inl hp⟩
  | cons loc rest ih =>
    intro st
    obtain ⟨ih1, ih2, ih3, ih4⟩ := ih (MovePackages.removeLocStep removeFails st loc)
    have hstep1 : (MovePackages.removeLocStep removeFails st loc).errorMessage
        = st.errorMessage := by
      unfold MovePackages.removeLocStep
      split
      · rfl
      · split <;> rfl
    have hstep2 : (MovePackages.removeLocStep removeFails st loc).addErrorMessage
        = st.addErrorMessage := by
      unfold MovePackages.removeLocStep
      split
      · rfl
      · split <;> rfl
    have hstep3 : ∀ q, q ∈ st.failedPackages.map Prod.fst →
        q ∈ (MovePackages.removeLocStep removeFails st
          loc).failedPackages.map Prod.fst := by
      intro q hq
      unfold MovePackages.removeLocStep
      split
      · exact hq
      · split
        · simp only [List.map_append]
          exact List.mem_append_left _ hq
        · exact hq
    have hstep4 : ∀ p, p ∈ st.processedPackages →
        p ∈ (MovePackages.removeLocStep removeFails st loc).processedPackages
        ∨ p ∈ (MovePackages.removeLocStep removeFails st
          loc).failedPackages.map Prod.fst := by
      intro p hp
      unfold MovePackages.removeLocStep
      split
      · exact Or.inl hp
      · split
        · by_cases hpe : p = loc.1
          · refine Or.inr ?_
            simp only [List.map_append]
            refine List.mem_append_right _ ?_
            simp [hpe]
          · refine Or.inl ?_
            simp only [List.mem_filter]
            exact ⟨hp, by simp [hpe]⟩
        · exact Or.inl hp
    refine ⟨?_, ?_, ?_, ?_⟩
    · rw [List.foldl_cons, ih1, hstep1]
    · rw [List.foldl_cons, ih2, hstep2]
    · intro q hq
      rw [List.foldl_cons]
      exact ih3 q (hstep3 q hq)
    · intro p hp
      rw [List.foldl_cons]
      rcases hstep4 p hp with hp' | hp'
      · exact ih4 p hp'
      · exact Or.inr (ih3 p hp')

/-- `handleRepoAddResult` never touches the result lists or the repo-remove
error message. -/
theorem handleRepoAddResult_frame (st : MoveState) (r : ProcessResult) :
    (MovePackages.handleRepoAddResult st r).processedPackages
        = st.processedPackages
    ∧ (MovePackages.handleRepoAddResult st r).failedPackages
        = st.failedPackages
    ∧ (MovePackages.handleRepoAddResult st r).errorMessage
        = st.errorMessage := by
  unfold MovePackages.handleRepoAddResult
  split
  · exact ⟨rfl, rfl, rfl⟩
  · split
    · exact ⟨rfl, rfl, rfl⟩
    · exact ⟨rfl, rfl, rfl⟩

/-- A successful repo-add leaves the state untouched; a failed one records a
non-empty `m_addErrorMessage`. -/
theorem handleRepoAddResult_message (st : MoveState) (r : ProcessResult) :
    (ProcessResult.ok r = true → MovePackages.handleRepoAddResult st r = st)
    ∧ (ProcessResult.ok r = false →
        (MovePackages.handleRepoAddResult st r).addErrorMessage ≠ "") := by
  constructor
  · intro h
    have h' : r.errorCode = false ∧ r.exitCode = 0 := by
      simpa [ProcessResult.ok, Bool.and_eq_true, Bool.not_eq_true'] using h
    unfold MovePackages.handleRepoAddResult
    rw [if_neg (by simp [h'.1]), if_neg (by simp [h'.2])]
  · intro h
    unfold MovePackages.handleRepoAddResult
    by_cases he : r.errorCode = true
    · rw [if_pos he]
      simp
    · have hef : r.errorCode = false := by simpa using he
      have hex : r.exitCode ≠ 0 := by
        intro hx
        simp [ProcessResult.ok, hef, hx] at h
      rw [if_neg (by simpa using he), if_pos hex]
      simp

/-- A failed repo-remove records a non-empty `m_result.errorMessage` without
touching the lists; a successful one runs the deletion loop. -/
theorem handleRepoRemoveResult_message (st : MoveState) (r : ProcessResult)
    (removeFails : String → Bool) :
    (ProcessResult.ok r = true →
      MovePackages.handleRepoRemoveResult st r removeFails
        = st.locations.foldl (MovePackages.removeLocStep removeFails) st)
    ∧ (ProcessResult.ok r = false →
        (MovePackages.handleRepoRemoveResult st r removeFails).errorMessage ≠ ""
        ∧ (MovePackages.handleRepoRemoveResult st r
            removeFails).processedPackages = st.processedPackages
        ∧ (MovePackages.handleRepoRemoveResult st r
            removeFails).failedPackages = st.failedPackages
        ∧ (MovePackages.handleRepoRemoveResult st r
            removeFails).addErrorMessage = st.addErrorMessage) := by
  constructor
  · intro h
    have h' : r.errorCode = false ∧ r.exitCode = 0 := by
      simpa [ProcessResult.ok, Bool.and_eq_true, Bool.not_eq_true'] using h
    unfold MovePackages.handleRepoRemoveResult
    rw [if_neg (by simp [h'.1]), if_neg (by simp [h'.2])]
  · intro h
    unfold MovePackages.handleRepoRemoveResult
    by_cases he : r.errorCode = true
    · rw [if_pos he]
      exact ⟨by simp, rfl, rfl, rfl⟩
    · have hef : r.errorCode = false := by simpa using he
      have hex : r.exitCode ≠ 0 := by
        intro hx
        simp [ProcessResult.ok, hef, hx] at h
      rw [if_neg (by simpa using he), if_pos hex]
      exact ⟨by simp, rfl, rfl, rfl⟩

/-- The copy phase starts with empty error messages and records exactly the
successfully copied packages as processed. -/
theorem copyPhase_spec (copyOutcomes : List (String × Bool)) :
    (MovePackages.copyPhase copyOutcomes).errorMessage = ""
    ∧ (MovePackages.copyPhase copyOutcomes).addErrorMessage = ""
    ∧ (MovePackages.copyPhase copyOutcomes).processedPackages
        = (copyOutcomes.filter (fun nb => nb.2)).map Prod.fst := by
  have hc := copyPhase_foldl_spec copyOutcomes
    { locations := [], processedPackages := [], failedPackages := [],
      errorMessage := "", addErrorMessage := "" }
  exact ⟨hc.1, hc.2.1, by simpa using hc.2.2⟩

/-- Unfolding `MovePackages.run` in the non-degenerate case. -/
theorem run_eq_conclude (copyOutcomes : List (String × Bool))
    (addResult removeResult : ProcessResult) (removeFails : String → Bool)
    (h : ¬((MovePackages.copyPhase copyOutcomes).processedPackages.isEmpty
      = true)) :
    MovePackages.run copyOutcomes addResult removeResult removeFails
      = MovePackages.conclude
          (MovePackages.handleRepoAddResult
            (MovePackages.handleRepoRemoveResult
              (MovePackages.copyPhase copyOutcomes) removeResult removeFails)
            addResult) := by
  unfold MovePackages.run
  dsimp only
  rw [if_neg h]

/-- Unfolding `MovePackages.run` when no package could be copied. -/
theorem run_eq_early_failure (copyOutcomes : List (String × Bool))
    (addResult removeResult : ProcessResult) (removeFails : String → Bool)
    (h : (MovePackages.copyPhase copyOutcomes).processedPackages.isEmpty
      = true) :
    MovePackages.run copyOutcomes addResult removeResult removeFails
      = (MovePackages.copyPhase copyOutcomes, BuildActionResult.Failure) := by
  unfold MovePackages.run
  dsimp only
  rw [if_pos h]

/-- C7: a package is reported in `processedPackages` (considered moved) only
if both the repo-add child at the destination and the repo-remove child at
the source succeeded (no spawn error and exit code 0); and if either child
process fails, every package that had been copied is reported in
`failedPackages` instead and the action's result is `Failure`. -/
theorem c7_move_needs_both_children (copyOutcomes : List (String × Bool))
    (addResult removeResult : ProcessResult) (removeFails : String → Bool) :
    (∀ p, p ∈ (MovePackages.run copyOutcomes addResult removeResult
        removeFails).1.processedPackages →
      ProcessResult.ok addResult = true ∧ ProcessResult.ok removeResult = true)
    ∧ (¬(ProcessResult.ok addResult = true
          ∧ ProcessResult.ok removeResult = true) →
        (MovePackages.run copyOutcomes addResult removeResult
            removeFails).1.processedPackages = []
        ∧ (∀ p, (p, true) ∈ copyOutcomes →
            p ∈ (MovePackages.run copyOutcomes addResult removeResult
              removeFails).1.failedPackages.map Prod.fst)
        ∧ (MovePackages.run copyOutcomes addResult removeResult
            removeFails).2 = BuildActionResult.Failure) := by
  by_cases hA : ProcessResult.ok addResult = true
    ∧ ProcessResult.ok removeResult = true
  · exact ⟨fun p _ => hA, fun hn => absurd hA hn⟩
  · have hcopy := copyPhase_spec copyOutcomes
    have hcopied : ∀ p, (p, true) ∈ copyOutcomes →
        p ∈ (MovePackages.copyPhase copyOutcomes).processedPackages := by
      intro p hp
      rw [hcopy.2.2]
      exact List.mem_map_of_mem Prod.fst (List.mem_filter.mpr ⟨hp, rfl⟩)
    suffices T :
        (MovePackages.run copyOutcomes addResult removeResult
          removeFails).1.processedPackages = []
        ∧ (∀ p, (p, true) ∈ copyOutcomes →
            p ∈ (MovePackages.run copyOutcomes addResult removeResult
              removeFails).1.failedPackages.map Prod.fst)
        ∧ (MovePackages.run copyOutcomes addResult removeResult
            removeFails).2 = BuildActionResult.Failure by
      refine ⟨fun p hp => ?_, fun _ => T⟩
      rw [T.1] at hp
      exact absurd hp (List.not_mem_nil p)
    by_cases hemp : (MovePackages.copyPhase
        copyOutcomes).processedPackages.isEmpty = true
    · rw [run_eq_early_failure copyOutcomes addResult removeResult
        removeFails hemp]
      have hnil : (MovePackages.copyPhase copyOutcomes).processedPackages
          = [] := List.isEmpty_iff.mp hemp
      refine ⟨hnil, fun p hp => ?_, rfl⟩
      have := hcopied p hp
      rw [hnil] at this
      exact absurd this (List.not_mem_nil p)
    · rw [run_eq_conclude copyOutcomes addResult removeResult removeFails hemp]
      by_cases hrem : ProcessResult.ok removeResult = true
      · -- repo-remove succeeded, so repo-add must have failed
        have hadd : ProcessResult.ok addResult = false := by
          cases hcase : ProcessResult.ok addResult with
          | true => exact absurd ⟨hcase, hrem⟩ hA
          | false => rfl
        rw [(handleRepoRemoveResult_message (MovePackages.copyPhase
          copyOutcomes) removeResult removeFails).1 hrem]
        have hfold := removeFold_spec removeFails
          (MovePackages.copyPhase copyOutcomes).locations
          (MovePackages.copyPhase copyOutcomes)
        have haddframe := handleRepoAddResult_frame
          ((MovePackages.copyPhase copyOutcomes).locations.foldl
            (MovePackages.removeLocStep removeFails)
            (MovePackages.copyPhase copyOutcomes)) addResult
        have haddmsg := (handleRepoAddResult_message
          ((MovePackages.copyPhase copyOutcomes).locations.foldl
            (MovePackages.removeLocStep removeFails)
            (MovePackages.copyPhase copyOutcomes)) addResult).2 hadd
        have hnocond : ¬((MovePackages.handleRepoAddResult
            ((MovePackages.copyPhase copyOutcomes).locations.foldl
              (MovePackages.removeLocStep removeFails)
              (MovePackages.copyPhase copyOutcomes))
            addResult).addErrorMessage = ""
            ∧ (MovePackages.handleRepoAddResult
              ((MovePackages.copyPhase copyOutcomes).locations.foldl
                (MovePackages.removeLocStep removeFails)
                (MovePackages.copyPhase copyOutcomes))
              addResult).errorMessage = "") := by
          intro hcond
          exact haddmsg hcond.1
        unfold MovePackages.conclude
        rw [if_neg hnocond]
        refine ⟨rfl, fun p hp => ?_, rfl⟩
        have hp0 := hcopied p hp
        rcases hfold.2.2.2 p hp0 with hproc | hfail
        · -- still processed after the deletion loop: flipped by conclude
          simp only [List.map_append, List.map_map]
          refine List.mem_append_right _ ?_
          rw [haddframe.1]
          simpa using hproc
        · -- already failed in the deletion loop
          simp only [List.map_append]
          refine List.mem_append_left _ ?_
          rw [haddframe.2.1]
          exact hfail
      · -- repo-remove failed
        have hremf : ProcessResult.ok removeResult = false := by
          cases hcase : ProcessResult.ok removeResult with
          | true => exact absurd hcase hrem
          | false => rfl
        have hremmsg := (handleRepoRemoveResult_message
          (MovePackages.copyPhase copyOutcomes) removeResult removeFails).2 hremf
        have haddframe := handleRepoAddResult_frame
          (MovePackages.handleRepoRemoveResult
            (MovePackages.copyPhase copyOutcomes) removeResult removeFails)
          addResult
        have hnocond : ¬((MovePackages.handleRepoAddResult
            (MovePackages.handleRepoRemoveResult
              (MovePackages.copyPhase copyOutcomes) removeResult removeFails)
            addResult).addErrorMessage = ""
            ∧ (MovePackages.handleRepoAddResult
              (MovePackages.handleRepoRemoveResult
                (MovePackages.copyPhase copyOutcomes) removeResult removeFails)
              addResult).errorMessage = "") := by
          intro hcond
          rw [haddframe.2.2] at hcond
          exact hremmsg.1 hcond.2
        unfold MovePackages.conclude
        rw [if_neg hnocond]
        refine ⟨rfl, fun p hp => ?_, rfl⟩
        have hp0 := hcopied p hp
        simp only [List.map_append, List.map_map]
        refine List.mem_append_right _ ?_
        rw [haddframe.1, hremmsg.2.1]
        simpa using hp0

/-- Witness for C7: with package "a" copied, a succeeding repo-add and a
repo-remove exiting 1, "a" is reported failed and the action fails; with both
children succeeding, "a" stays processed and the conjunction of successes is
produced by the theorem. -/
theorem c7_move_witness :
    ((MovePackages.run [("a", true)] ⟨false, 0⟩ ⟨false, 1⟩
        (fun _ => false)).1.processedPackages = []
      ∧ "a" ∈ (MovePackages.run [("a", true)] ⟨false, 0⟩ ⟨false, 1⟩
          (fun _ => false)).1.failedPackages.map Prod.fst
      ∧ (MovePackages.run [("a", true)] ⟨false, 0⟩ ⟨false, 1⟩
          (fun _ => false)).2 = BuildActionResult.Failure)
    ∧ (ProcessResult.ok ⟨false, 0⟩ = true
        ∧ ProcessResult.ok ⟨false, 0⟩ = true) :=
  ⟨⟨((c7_move_needs_both_children [("a", true)] ⟨false, 0⟩ ⟨false, 1⟩
       (fun _ => false)).2 (by decide)).1,
    ((c7_move_needs_both_children [("a", true)] ⟨false, 0⟩ ⟨false, 1⟩
       (fun _ => false)).2 (by decide)).2.1 "a" (by decide),
    ((c7_move_needs_both_children [("a", true)] ⟨false, 0⟩ ⟨false, 1⟩
       (fun _ => false)).2 (by decide)).2.2⟩,
   (c7_move_needs_both_children [("a", true)] ⟨false, 0⟩ ⟨false, 0⟩
      (fun _ => false)).1 "a" (by decide)⟩

end ArchRepo
